import Mathlib

/-!
Shallow embedding of `netai/timetravel_dreamai/utils/compare_results.py`:
`parse_ground_truth`, `parse_prediction_json` (over the list of chunk content
strings) and `calculate_metrics`, together with theorems about the evaluation
engine.  Machine integers are modelled as `Int`/`Nat`, Python floats produced
by the metric divisions as exact rationals `ℚ`, raised exceptions as
`Except.error`.
-/

instance {ε α : Type} [DecidableEq ε] [DecidableEq α] :
    DecidableEq (Except ε α) := fun x y =>
  match x, y with
  | .error a, .error b =>
    if h : a = b then isTrue (by rw [h]) else isFalse (by simp [h])
  | .ok a, .ok b =>
    if h : a = b then isTrue (by rw [h]) else isFalse (by simp [h])
  | .error _, .ok _ => isFalse (by simp)
  | .ok _, .error _ => isFalse (by simp)

/-- Characters Python treats as whitespace in `str.strip()`, `str.split()`
and in the regex class `\s` (ASCII subset; the repository's data is ASCII). -/
def isPyWs (c : Char) : Bool :=
  c = ' ' || c = '\t' || c = '\n' || c = '\r' || c = '\x0b' || c = '\x0c'

/-- Python `str.strip()` on a character list. -/
def pyStripL (cs : List Char) : List Char :=
  ((cs.dropWhile isPyWs).reverse.dropWhile isPyWs).reverse

/-- Python `str.strip()`. -/
def pyStrip (s : String) : String := String.mk (pyStripL s.data)

/-- Python `str.split(sep)` for a one-character separator, on character
lists: `"".split(sep) == ['']`, adjacent separators yield empty fields. -/
def splitOnChar (sep : Char) : List Char → List (List Char)
  | [] => [[]]
  | c :: rest =>
    let r := splitOnChar sep rest
    if c = sep then [] :: r
    else
      match r with
      | t :: ts => (c :: t) :: ts
      | [] => [[c]]

/-- Helper for whitespace splitting: like `splitOnChar` but cutting at every
whitespace character. -/
def splitWsAux : List Char → List (List Char)
  | [] => [[]]
  | c :: rest =>
    let r := splitWsAux rest
    if isPyWs c then [] :: r
    else
      match r with
      | t :: ts => (c :: t) :: ts
      | [] => [[c]]

/-- Python `str.split()` with no argument: split on whitespace runs and drop
empty fields. -/
def pySplitWsL (cs : List Char) : List (List Char) :=
  (splitWsAux cs).filter (fun t => t ≠ [])

/-- Numeric value of a digit run. -/
def digitsVal (cs : List Char) : Nat :=
  cs.foldl (fun n c => n * 10 + (c.toNat - '0'.toNat)) 0

/-- Python `int(str)`: strip, optional sign, decimal digits (the underscore
separator extension is not used by this repository's data).  `none` models a
raised `ValueError`. -/
def pyIntL (s : List Char) : Option Int :=
  let cs := pyStripL s
  let signDigits : Int × List Char :=
    match cs with
    | '-' :: rest => (-1, rest)
    | '+' :: rest => (1, rest)
    | rest => (1, rest)
  if signDigits.2 = [] || ¬ signDigits.2.all Char.isDigit then none
  else some (signDigits.1 * (digitsVal signDigits.2 : Int))

/-- Lexicographic code-point comparison of character lists, the order Python
uses to compare `str` values (and hence the order of `sorted`). -/
def strLeB : List Char → List Char → Bool
  | [], _ => true
  | _ :: _, [] => false
  | a :: as, b :: bs =>
    if a.toNat = b.toNat then strLeB as bs else Nat.blt a.toNat b.toNat

/-- Python `<=` on strings. -/
def strLe (s t : String) : Prop := strLeB s.data t.data = true

instance : DecidableRel strLe := fun s t => by
  unfold strLe; infer_instance

/-- A Python dict with string keys as an insertion-ordered association list:
assignment to an existing key updates it in place, a new key appends. -/
def dictInsert {α : Type} (d : List (String × α)) (k : String) (v : α) :
    List (String × α) :=
  if d.any (fun p => p.1 = k) then
    d.map (fun p => if p.1 = k then (k, v) else p)
  else d ++ [(k, v)]

/-- Python `k in d`. -/
def dictContains {α : Type} (d : List (String × α)) (k : String) : Bool :=
  d.any (fun p => p.1 = k)

/-- Python `d.get(k, default)`. -/
def dictGetD {α : Type} (d : List (String × α)) (k : String) (v₀ : α) : α :=
  match d.find? (fun p => p.1 = k) with
  | some p => p.2
  | none => v₀

/-- A timestamp-keyed mapping to integer object-id sets, the shape produced
by both parsers and consumed by `calculate_metrics`. -/
abbrev TMap := List (String × Finset Int)

/-- `parse_ground_truth` from compare_results.py.  `Except.error` models an
uncaught Python exception: the `int(x.strip())` call raises `ValueError` on a
non-integer token and nothing in the function catches it. -/
def parse_ground_truth (gt_text : String) : Except Unit TMap :=
  (splitOnChar '\n' (pyStripL gt_text.data)).foldlM (fun acc lineCs =>
    let line := pyStripL lineCs
    if line = [] then Except.ok acc
    else
      match pySplitWsL line with
      | timestamp :: idsField :: _ =>
        match (splitOnChar ',' idsField).mapM (fun x => pyIntL (pyStripL x)) with
        | some ids => Except.ok (dictInsert acc (String.mk timestamp) ids.toFinset)
        | none => Except.error ()
      | _ => Except.ok acc) []

/-- `sorted(set(ground_truth.keys()) | set(predictions.keys()))`: the distinct
keys of both mappings in ascending lexicographic order. -/
def allTimestamps (gt pred : TMap) : List String :=
  List.insertionSort strLe ((gt.map Prod.fst ++ pred.map Prod.fst).dedup)

/-- `sorted(s)` on a multiset of integers: well-defined because sorted
permutations agree. -/
def multisetSortedZ (s : Multiset Int) : List Int :=
  Quot.lift (fun l => List.insertionSort (· ≤ ·) l)
    (fun l₁ l₂ h =>
      List.eq_of_perm_of_sorted
        (((List.perm_insertionSort _ l₁).trans h).trans
          (List.perm_insertionSort _ l₂).symm)
        (List.sorted_insertionSort _ l₁)
        (List.sorted_insertionSort _ l₂)) s

/-- Python `sorted(s)` for a set of integers. -/
def pySortedZ (s : Finset Int) : List Int := multisetSortedZ s.val

/-- One entry of `details['correct']`. -/
structure CorrectEntry where
  timestamp : String
  objects : List Int
deriving DecidableEq

/-- One entry of `details['missing_timestamps']`. -/
structure MissingEntry where
  timestamp : String
  ground_truth : List Int
deriving DecidableEq

/-- One entry of `details['extra_timestamps']`. -/
structure ExtraEntry where
  timestamp : String
  predicted : List Int
deriving DecidableEq

/-- One entry of `details['incorrect_objects']`. -/
structure IncorrectEntry where
  timestamp : String
  ground_truth : List Int
  predicted : List Int
  correct : List Int
  extra : List Int
  missing : List Int
deriving DecidableEq

/-- The `details` dictionary of `calculate_metrics`. -/
structure MDetails where
  correct : List CorrectEntry
  missing_timestamps : List MissingEntry
  extra_timestamps : List ExtraEntry
  incorrect_objects : List IncorrectEntry
deriving DecidableEq

/-- Loop state of `calculate_metrics`: the three counters and `details`. -/
structure MState where
  tp : Nat
  fp : Nat
  fn : Nat
  details : MDetails
deriving DecidableEq

/-- The body of the `for timestamp in sorted(all_timestamps)` loop. -/
def metricsStep (gt pred : TMap) (st : MState) (timestamp : String) : MState :=
  let gt_objects := dictGetD gt timestamp ∅
  let pred_objects := dictGetD pred timestamp ∅
  if ¬ dictContains gt timestamp then
    { st with
      fp := st.fp + pred_objects.card
      details := { st.details with
        extra_timestamps := st.details.extra_timestamps ++
          [⟨timestamp, pySortedZ pred_objects⟩] } }
  else if ¬ dictContains pred timestamp then
    { st with
      fn := st.fn + gt_objects.card
      details := { st.details with
        missing_timestamps := st.details.missing_timestamps ++
          [⟨timestamp, pySortedZ gt_objects⟩] } }
  else
    let correct_objects := gt_objects ∩ pred_objects
    let extra_objects := pred_objects \ gt_objects
    let missing_objects := gt_objects \ pred_objects
    let st' := { st with
      tp := st.tp + correct_objects.card
      fp := st.fp + extra_objects.card
      fn := st.fn + missing_objects.card }
    if gt_objects = pred_objects then
      { st' with details := { st'.details with
          correct := st'.details.correct ++
            [⟨timestamp, pySortedZ gt_objects⟩] } }
    else
      { st' with details := { st'.details with
          incorrect_objects := st'.details.incorrect_objects ++
            [⟨timestamp, pySortedZ gt_objects, pySortedZ pred_objects,
              pySortedZ correct_objects, pySortedZ extra_objects,
              pySortedZ missing_objects⟩] } }

/-- Initial loop state: zero counters, four empty buckets. -/
def initMState : MState := ⟨0, 0, 0, ⟨[], [], [], []⟩⟩

/-- The classification loop of `calculate_metrics`. -/
def metricsFold (gt pred : TMap) : MState :=
  (allTimestamps gt pred).foldl (metricsStep gt pred) initMState

/-- `precision = tp / (tp + fp) if (tp + fp) > 0 else 0`. -/
def precisionOf (st : MState) : ℚ :=
  if st.tp + st.fp > 0 then (st.tp : ℚ) / ((st.tp : ℚ) + (st.fp : ℚ)) else 0

/-- `recall = tp / (tp + fn) if (tp + fn) > 0 else 0`. -/
def recallOf (st : MState) : ℚ :=
  if st.tp + st.fn > 0 then (st.tp : ℚ) / ((st.tp : ℚ) + (st.fn : ℚ)) else 0

/-- `f1 = 2 * (precision * recall) / (precision + recall) if (precision +
recall) > 0 else 0`. -/
def f1Of (st : MState) : ℚ :=
  if precisionOf st + recallOf st > 0 then
    2 * (precisionOf st * recallOf st) / (precisionOf st + recallOf st)
  else 0

/-- `calculate_metrics`: returns `(precision, recall, f1, details)`.  The
Python float divisions are exact here (numerator and denominator are small
integers), so ℚ is a faithful value model for the comparisons we state. -/
def calculate_metrics (gt pred : TMap) : ℚ × ℚ × ℚ × MDetails :=
  let st := metricsFold gt pred
  (precisionOf st, recallOf st, f1Of st, st.details)

/-- JSON values as decoded by `json.loads`.  Numerals are integers: the
repository's prediction data carries integer ids and string timestamps (a
float numeral is outside this subset and is treated as a decode failure). -/
inductive PyJson where
  | null
  | bool (b : Bool)
  | int (n : Int)
  | str (s : String)
  | arr (items : List PyJson)
  | obj (entries : List (String × PyJson))

/-- Hashable Python values, the possible members of an id set.  (Python's
`True == 1` cross-type equality is not modelled; the repository's id lists
hold plain integers, where equality agrees.) -/
inductive PyVal where
  | int (n : Int)
  | str (s : String)
  | bool (b : Bool)
  | none
deriving DecidableEq

/-- Hashing a decoded JSON value for set membership: scalars are hashable,
`list`/`dict` raise `TypeError`. -/
def pyHashable : PyJson → Except Unit PyVal
  | .null => Except.ok PyVal.none
  | .bool b => Except.ok (PyVal.bool b)
  | .int n => Except.ok (PyVal.int n)
  | .str s => Except.ok (PyVal.str s)
  | .arr _ => Except.error ()
  | .obj _ => Except.error ()

/-- Python `set(x)` on a decoded JSON value: an iterable yields the set of
its (hashable) elements — a string its characters, a dict its keys — and a
non-iterable (`int`, `bool`, `None`) raises `TypeError`. -/
def pySet : PyJson → Except Unit (Finset PyVal)
  | .arr items => do
      let vs ← items.mapM pyHashable
      pure vs.toFinset
  | .str s =>
      Except.ok (s.data.map (fun c => PyVal.str (String.mk [c]))).toFinset
  | .obj entries =>
      Except.ok (entries.map (fun p => PyVal.str p.1)).toFinset
  | _ => Except.error ()

/-- Python `for item in v`: iterating a decoded JSON value; a non-iterable
raises `TypeError`. -/
def pyIter : PyJson → Except Unit (List PyJson)
  | .arr items => Except.ok items
  | .str s => Except.ok (s.data.map (fun c => PyJson.str (String.mk [c])))
  | .obj entries => Except.ok (entries.map (fun p => PyJson.str p.1))
  | _ => Except.error ()

/-- JSON whitespace accepted between tokens by `json.loads`. -/
def isJsWs (c : Char) : Bool := c = ' ' || c = '\t' || c = '\n' || c = '\r'

/-- Body of a JSON string after the opening quote: returns the decoded
characters and the remainder after the closing quote. -/
def parseJsStrBody : List Char → Option (List Char × List Char)
  | [] => Option.none
  | '"' :: rest => some ([], rest)
  | '\\' :: esc :: rest =>
    let c? : Option Char :=
      if esc = '"' then some '"'
      else if esc = '\\' then some '\\'
      else if esc = '/' then some '/'
      else if esc = 'n' then some '\n'
      else if esc = 't' then some '\t'
      else if esc = 'r' then some '\r'
      else Option.none
    match c? with
    | some c =>
      match parseJsStrBody rest with
      | some (body, rem) => some (c :: body, rem)
      | Option.none => Option.none
    | Option.none => Option.none
  | c :: rest =>
    if c.toNat < 32 then Option.none
    else
      match parseJsStrBody rest with
      | some (body, rem) => some (c :: body, rem)
      | Option.none => Option.none

/-- An unsigned JSON integer numeral: a digit run with no leading zero and
not followed by a fraction or exponent (floats are outside the subset). -/
def parseJsNat (cs : List Char) : Option (Nat × List Char) :=
  let digits := cs.takeWhile Char.isDigit
  let rest := cs.dropWhile Char.isDigit
  if digits = [] then Option.none
  else if digits.length > 1 && digits.head? = some '0' then Option.none
  else
    match rest with
    | c :: _ =>
      if c = '.' || c = 'e' || c = 'E' then Option.none
      else some (digitsVal digits, rest)
    | [] => some (digitsVal digits, rest)

mutual

/-- Recursive-descent parser for the JSON subset carried by the prediction
files.  `fuel` bounds the recursion; `json_loadsL` supplies enough for any
input it is given. -/
def parseJsVal : Nat → List Char → Option (PyJson × List Char)
  | 0, _ => Option.none
  | fuel + 1, cs₀ =>
    match cs₀.dropWhile isJsWs with
    | [] => Option.none
    | c :: rest =>
      if c = 'n' then
        match rest with
        | 'u' :: 'l' :: 'l' :: rem => some (.null, rem)
        | _ => Option.none
      else if c = 't' then
        match rest with
        | 'r' :: 'u' :: 'e' :: rem => some (.bool true, rem)
        | _ => Option.none
      else if c = 'f' then
        match rest with
        | 'a' :: 'l' :: 's' :: 'e' :: rem => some (.bool false, rem)
        | _ => Option.none
      else if c = '"' then
        match parseJsStrBody rest with
        | some (body, rem) => some (.str (String.mk body), rem)
        | Option.none => Option.none
      else if c = '-' then
        match parseJsNat rest with
        | some (n, rem) => some (.int (-(n : Int)), rem)
        | Option.none => Option.none
      else if c.isDigit then
        match parseJsNat (c :: rest) with
        | some (n, rem) => some (.int (n : Int), rem)
        | Option.none => Option.none
      else if c = '[' then
        match rest.dropWhile isJsWs with
        | ']' :: rem => some (.arr [], rem)
        | _ =>
          match parseJsArrItems fuel rest with
          | some (items, rem) => some (.arr items, rem)
          | Option.none => Option.none
      else if c = '\x7b' then
        match rest.dropWhile isJsWs with
        | '\x7d' :: rem => some (.obj [], rem)
        | _ =>
          match parseJsObjItems fuel rest [] with
          | some (entries, rem) => some (.obj entries, rem)
          | Option.none => Option.none
      else Option.none

/-- Comma-separated JSON array elements up to the closing bracket. -/
def parseJsArrItems : Nat → List Char → Option (List PyJson × List Char)
  | 0, _ => Option.none
  | fuel + 1, cs =>
    match parseJsVal fuel cs with
    | Option.none => Option.none
    | some (v, cs₁) =>
      match cs₁.dropWhile isJsWs with
      | ',' :: cs₂ =>
        match parseJsArrItems fuel cs₂ with
        | some (items, rem) => some (v :: items, rem)
        | Option.none => Option.none
      | ']' :: rem => some ([v], rem)
      | _ => Option.none

/-- Comma-separated JSON object members up to the closing brace; duplicate
keys follow dict semantics (last write wins, first position kept). -/
def parseJsObjItems : Nat → List Char → List (String × PyJson) →
    Option (List (String × PyJson) × List Char)
  | 0, _, _ => Option.none
  | fuel + 1, cs, acc =>
    match cs.dropWhile isJsWs with
    | '"' :: cs₁ =>
      match parseJsStrBody cs₁ with
      | Option.none => Option.none
      | some (key, cs₂) =>
        match cs₂.dropWhile isJsWs with
        | ':' :: cs₃ =>
          match parseJsVal fuel cs₃ with
          | Option.none => Option.none
          | some (v, cs₄) =>
            match cs₄.dropWhile isJsWs with
            | ',' :: cs₅ => parseJsObjItems fuel cs₅ (dictInsert acc (String.mk key) v)
            | '\x7d' :: rem => some (dictInsert acc (String.mk key) v, rem)
            | _ => Option.none
        | _ => Option.none
    | _ => Option.none

end

/-- `json.loads` on a character list: one JSON value, then only trailing
whitespace.  `none` models a raised `json.JSONDecodeError`. -/
def json_loadsL (cs : List Char) : Option PyJson :=
  match parseJsVal (2 * cs.length + 4) cs with
  | some (v, rest) => if rest.dropWhile isJsWs = [] then some v else Option.none
  | Option.none => Option.none

/-- Boolean prefix test on character lists. -/
def listStartsWith : List Char → List Char → Bool
  | [], _ => true
  | _ :: _, [] => false
  | p :: ps, c :: cs => p = c && listStartsWith ps cs

/-- After a candidate closing `]` of the captured group: the trailing
`\s*```` ``` ```` of the fence pattern must match here (greedy `\s*` with
backtracking amounts to: a whitespace run, some prefix of which is followed
by three backticks). -/
def fenceCloseOk : List Char → Bool
  | [] => false
  | c :: rest =>
    listStartsWith "```".data (c :: rest) || (isPyWs c && fenceCloseOk rest)

/-- The lazy `(\[.*?\])` of the fence regex, scanning after the opening `[`:
stop at the earliest `]` whose tail satisfies `fenceCloseOk`; a rejected `]`
is swallowed by `.*?` and scanning continues.  Returns the group body. -/
def fenceFindClose (acc : List Char) : List Char → Option (List Char)
  | [] => Option.none
  | c :: rest =>
    if c = ']' && fenceCloseOk rest then some acc.reverse
    else fenceFindClose (c :: acc) rest

/-- Matching the fence pattern immediately after a `` ```json `` tag:
`\s*` then the bracketed lazy group. -/
def tryFenceAt (cs : List Char) : Option (List Char) :=
  match cs.dropWhile isPyWs with
  | '[' :: rest =>
    match fenceFindClose [] rest with
    | some body => some (('[' :: body) ++ [']'])
    | Option.none => Option.none
  | _ => Option.none

/-- `re.search(r'```json\s*(\[.*?\])\s*```', content, re.DOTALL)`: scan for
the leftmost position where the pattern matches and return the captured
group. -/
def reSearchJsonFence : List Char → Option (List Char)
  | [] => Option.none
  | c :: rest =>
    if listStartsWith "```json".data (c :: rest) then
      match tryFenceAt ((c :: rest).drop 7) with
      | some g => some g
      | Option.none => reSearchJsonFence rest
    else reSearchJsonFence rest

/-- Candidate JSON text extracted from one chunk's stripped content: the
fenced `` ```json `` block if the regex matches, else the content itself when
it is bracket-delimited, else nothing (the chunk is skipped). -/
def extractCandidate (content : String) : Option (List Char) :=
  let c := pyStripL content.data
  match reSearchJsonFence c with
  | some g => some g
  | Option.none =>
    if c.head? = some '[' && c.getLast? = some ']' then some c
    else Option.none

/-- The timestamp-keyed mapping built by `parse_prediction_json`, with the
values as sets of arbitrary hashable Python values (the data carries
integers). -/
abbrev Predictions := List (String × Finset PyVal)

/-- The `for item in items` loop of `parse_prediction_json`: a dict element
contributes every `(timestamp, set(obj_ids))` pair, a non-dict element is
skipped; a `TypeError` from `set(...)` is not caught by the surrounding
`except json.JSONDecodeError` and aborts the whole call. -/
def processItems : List PyJson → Predictions → Except Unit Predictions
  | [], preds => Except.ok preds
  | .obj entries :: rest, preds =>
    match entries.foldlM (fun d p => do
        let s ← pySet p.2
        pure (dictInsert d p.1 s)) preds with
    | Except.ok preds' => processItems rest preds'
    | Except.error e => Except.error e
  | _ :: rest, preds => processItems rest preds

/-- One iteration of the chunk loop: extract a candidate, decode it (a
decode failure is caught, logged and skipped), then record its items. -/
def processChunk (preds : Predictions) (content : String) :
    Except Unit Predictions :=
  match extractCandidate content with
  | Option.none => Except.ok preds
  | some js =>
    match json_loadsL js with
    | Option.none => Except.ok preds
    | some v =>
      match pyIter v with
      | Except.error e => Except.error e
      | Except.ok items => processItems items preds

/-- The chunk loop of `parse_prediction_json` from a given accumulated
mapping: an uncaught exception aborts the remaining chunks. -/
def parsePredictionFrom (preds : Predictions) :
    List String → Except Unit Predictions
  | [] => Except.ok preds
  | c :: rest =>
    match processChunk preds c with
    | Except.ok preds' => parsePredictionFrom preds' rest
    | Except.error e => Except.error e

/-- `parse_prediction_json`, modelled over the list of chunk content strings
(the file read and the `chunk_responses`/`content` field accesses happen
before the loop and are collaborator I/O). -/
def parse_prediction_json (chunks : List String) : Except Unit Predictions :=
  parsePredictionFrom [] chunks

/-- The timestamps of the four classification buckets, concatenated. -/
def bucketTimestamps (d : MDetails) : List String :=
  d.correct.map CorrectEntry.timestamp ++
  d.incorrect_objects.map IncorrectEntry.timestamp ++
  d.missing_timestamps.map MissingEntry.timestamp ++
  d.extra_timestamps.map ExtraEntry.timestamp

/-- Whether an `Except` computation finished without raising. -/
def exceptIsOk {ε α : Type} : Except ε α → Bool
  | Except.ok _ => true
  | Except.error _ => false

/-- A ground-truth line that `parse_ground_truth` handles without raising:
either it is skipped (blank or fewer than two fields) or every
comma-separated token of its second field is a valid integer. -/
def gtLineOkB (lineCs : List Char) : Bool :=
  match pySplitWsL (pyStripL lineCs) with
  | _ :: idsField :: _ =>
    (splitOnChar ',' idsField).all (fun tok => (pyIntL (pyStripL tok)).isSome)
  | _ => true

example : parse_ground_truth "00:00:28 1,4\n00:00:30 2,4" =
    Except.ok [("00:00:28", {1, 4}), ("00:00:30", {2, 4})] := by decide

example :
    metricsFold [("00:00:28", {1, 4}), ("00:00:30", {2, 4})]
      [("00:00:28", {1, 4}), ("00:00:30", {2})] =
    ⟨3, 0, 1,
      ⟨[⟨"00:00:28", [1, 4]⟩], [], [],
        [⟨"00:00:30", [2, 4], [2], [2], [], [4]⟩]⟩⟩ := by decide

example : parse_prediction_json ["```json\n[\x7b\"00:00:31\": [2,4]\x7d]\n```"] =
    Except.ok [("00:00:31", {PyVal.int 2, PyVal.int 4})] := by decide

example : parse_prediction_json ["I think the objects are 1 and 4."] =
    Except.ok [] := by decide

example : parse_prediction_json ["[\x7b\"a\": 5\x7d]"] = Except.error () := by decide

/-! ## Shared lemmas about the dictionary model and the key list -/

lemma dictContains_iff {α : Type} (d : List (String × α)) (k : String) :
    dictContains d k = true ↔ k ∈ d.map Prod.fst := by
  simp [dictContains, List.any_eq_true, List.mem_map]

lemma dictGetD_of_not_mem {α : Type} (d : List (String × α)) (k : String)
    (v₀ : α) (h : k ∉ d.map Prod.fst) : dictGetD d k v₀ = v₀ := by
  have hn : d.find? (fun p => p.1 = k) = Option.none := by
    rw [List.find?_eq_none]
    intro p hp
    simp only [decide_eq_true_eq]
    exact fun he => h (List.mem_map.mpr ⟨p, hp, he⟩)
  simp [dictGetD, hn]

lemma mem_allTimestamps (gt pred : TMap) (t : String) :
    t ∈ allTimestamps gt pred ↔
      t ∈ gt.map Prod.fst ∨ t ∈ pred.map Prod.fst := by
  unfold allTimestamps
  rw [(List.perm_insertionSort strLe _).mem_iff, List.mem_dedup,
    List.mem_append]

lemma nodup_allTimestamps (gt pred : TMap) : (allTimestamps gt pred).Nodup := by
  unfold allTimestamps
  exact (List.perm_insertionSort strLe _).nodup_iff.mpr (List.nodup_dedup _)

/-! ## Bounds on the derived metrics -/

lemma ratio_bounds (a b : Nat) :
    0 ≤ (if a + b > 0 then (a : ℚ) / ((a : ℚ) + (b : ℚ)) else 0) ∧
    (if a + b > 0 then (a : ℚ) / ((a : ℚ) + (b : ℚ)) else 0) ≤ 1 := by
  by_cases hc : a + b > 0
  · simp only [if_pos hc]
    have hpos : (0 : ℚ) < (a : ℚ) + (b : ℚ) := by
      have h1 : (0 : ℚ) < ((a + b : Nat) : ℚ) := by exact_mod_cast hc
      push_cast at h1
      linarith
    refine ⟨by positivity, ?_⟩
    rw [div_le_one hpos]
    have hb : (0 : ℚ) ≤ (b : ℚ) := Nat.cast_nonneg b
    linarith
  · simp [hc]

lemma f1_bounds (p r : ℚ) (hp0 : 0 ≤ p) (hp1 : p ≤ 1) (hr0 : 0 ≤ r)
    (hr1 : r ≤ 1) :
    0 ≤ (if p + r > 0 then 2 * (p * r) / (p + r) else 0) ∧
    (if p + r > 0 then 2 * (p * r) / (p + r) else 0) ≤ 1 := by
  by_cases hc : p + r > 0
  · simp only [if_pos hc]
    refine ⟨by positivity, ?_⟩
    rw [div_le_one hc]
    nlinarith
  · simp [hc]

lemma precisionOf_bounds (st : MState) :
    0 ≤ precisionOf st ∧ precisionOf st ≤ 1 := by
  unfold precisionOf
  exact ratio_bounds st.tp st.fp

lemma recallOf_bounds (st : MState) :
    0 ≤ recallOf st ∧ recallOf st ≤ 1 := by
  unfold recallOf
  exact ratio_bounds st.tp st.fn

lemma f1Of_bounds (st : MState) : 0 ≤ f1Of st ∧ f1Of st ≤ 1 := by
  unfold f1Of
  exact f1_bounds _ _ (precisionOf_bounds st).1 (precisionOf_bounds st).2
    (recallOf_bounds st).1 (recallOf_bounds st).2

/-- C3: for every pair of mappings, precision, recall and f1 lie in `[0, 1]`;
each is exactly `0` when its governing denominator is `0` (never undefined),
and on empty/empty input all three metrics are `0`. -/
theorem metrics_well_defined (gt pred : TMap) :
    (0 ≤ (calculate_metrics gt pred).1 ∧ (calculate_metrics gt pred).1 ≤ 1) ∧
    (0 ≤ (calculate_metrics gt pred).2.1 ∧
      (calculate_metrics gt pred).2.1 ≤ 1) ∧
    (0 ≤ (calculate_metrics gt pred).2.2.1 ∧
      (calculate_metrics gt pred).2.2.1 ≤ 1) ∧
    ((metricsFold gt pred).tp + (metricsFold gt pred).fp = 0 →
      (calculate_metrics gt pred).1 = 0) ∧
    ((metricsFold gt pred).tp + (metricsFold gt pred).fn = 0 →
      (calculate_metrics gt pred).2.1 = 0) ∧
    ((calculate_metrics gt pred).1 + (calculate_metrics gt pred).2.1 = 0 →
      (calculate_metrics gt pred).2.2.1 = 0) ∧
    calculate_metrics [] [] = (0, 0, 0, ⟨[], [], [], []⟩) := by
  have h1 : (calculate_metrics gt pred).1 = precisionOf (metricsFold gt pred) := rfl
  have h2 : (calculate_metrics gt pred).2.1 = recallOf (metricsFold gt pred) := rfl
  have h3 : (calculate_metrics gt pred).2.2.1 = f1Of (metricsFold gt pred) := rfl
  rw [h1, h2, h3]
  refine ⟨precisionOf_bounds _, recallOf_bounds _, f1Of_bounds _, ?_, ?_, ?_, ?_⟩
  · intro h
    unfold precisionOf
    rw [if_neg (by omega)]
  · intro h
    unfold recallOf
    rw [if_neg (by omega)]
  · intro h
    unfold f1Of
    rw [if_neg (by rw [h]; norm_num)]
  · have hf : metricsFold [] [] = initMState := by decide
    simp only [calculate_metrics, hf]
    norm_num [precisionOf, recallOf, f1Of, initMState]

/-- Witness for `metrics_well_defined` at a concrete input: the zero-
denominator hypotheses hold for a non-empty truth and empty prediction. -/
theorem metrics_well_defined_witness :
    ((metricsFold [("00:00:28", ({1} : Finset Int))] []).tp +
      (metricsFold [("00:00:28", ({1} : Finset Int))] []).fp = 0) ∧
    (calculate_metrics [("00:00:28", ({1} : Finset Int))] []).1 = 0 :=
  ⟨by decide,
    (metrics_well_defined [("00:00:28", ({1} : Finset Int))] []).2.2.2.1
      (by decide)⟩

/-- C7: the concrete scenario from the spec.  `f1 = 6/7 ≈ 0.857`. -/
theorem calculate_metrics_concrete :
    calculate_metrics [("00:00:28", {1, 4}), ("00:00:30", {2, 4})]
        [("00:00:28", {1, 4}), ("00:00:30", {2})] =
      (1, 3 / 4, 6 / 7,
        ⟨[⟨"00:00:28", [1, 4]⟩], [], [],
          [⟨"00:00:30", [2, 4], [2], [2], [], [4]⟩]⟩) := by
  have h : metricsFold [("00:00:28", {1, 4}), ("00:00:30", {2, 4})]
      [("00:00:28", {1, 4}), ("00:00:30", {2})] =
      ⟨3, 0, 1, ⟨[⟨"00:00:28", [1, 4]⟩], [], [],
        [⟨"00:00:30", [2, 4], [2], [2], [], [4]⟩]⟩⟩ := by decide
  simp only [calculate_metrics, h]
  norm_num [precisionOf, recallOf, f1Of]

/-! ## Empty prediction: every truth key is missing -/

lemma foldl_empty_pred (gt : TMap) (ts : List String) (st : MState)
    (h : ∀ t ∈ ts, dictContains gt t = true) :
    ts.foldl (metricsStep gt []) st =
      ⟨st.tp, st.fp,
        st.fn + (ts.map (fun t => (dictGetD gt t ∅).card)).sum,
        ⟨st.details.correct,
          st.details.missing_timestamps ++
            ts.map (fun t => ⟨t, pySortedZ (dictGetD gt t ∅)⟩),
          st.details.extra_timestamps, st.details.incorrect_objects⟩⟩ := by
  induction ts generalizing st with
  | nil => simp
  | cons t rest ih =>
    have ht := h t (by simp)
    rw [List.foldl_cons]
    have hstep : metricsStep gt [] st t =
        ⟨st.tp, st.fp, st.fn + (dictGetD gt t ∅).card,
          ⟨st.details.correct,
            st.details.missing_timestamps ++
              [⟨t, pySortedZ (dictGetD gt t ∅)⟩],
            st.details.extra_timestamps, st.details.incorrect_objects⟩⟩ := by
      have h2 : dictContains ([] : TMap) t = false := rfl
      simp [metricsStep, ht, h2]
    rw [hstep, ih _ (fun u hu => h u (by simp [hu]))]
    simp [add_assoc]

/-- C8: evaluating a non-empty truth mapping against an empty prediction
yields precision = recall = f1 = 0, classifies every truth key as a
MissingTimestamp record, and leaves the other three buckets empty. -/
theorem empty_prediction_result (gt : TMap) (hne : gt ≠ []) :
    (calculate_metrics gt []).1 = 0 ∧
    (calculate_metrics gt []).2.1 = 0 ∧
    (calculate_metrics gt []).2.2.1 = 0 ∧
    (calculate_metrics gt []).2.2.2.correct = [] ∧
    (calculate_metrics gt []).2.2.2.incorrect_objects = [] ∧
    (calculate_metrics gt []).2.2.2.extra_timestamps = [] ∧
    (calculate_metrics gt []).2.2.2.missing_timestamps.map
        MissingEntry.timestamp = allTimestamps gt [] := by
  have hall : ∀ t ∈ allTimestamps gt [], dictContains gt t = true := by
    intro t htm
    rw [dictContains_iff]
    rcases (mem_allTimestamps gt [] t).mp htm with h | h
    · exact h
    · simp at h
  have hfold : metricsFold gt [] =
      ⟨0, 0,
        ((allTimestamps gt []).map (fun t => (dictGetD gt t ∅).card)).sum,
        ⟨[],
          (allTimestamps gt []).map
            (fun t => ⟨t, pySortedZ (dictGetD gt t ∅)⟩),
          [], []⟩⟩ := by
    unfold metricsFold
    rw [foldl_empty_pred gt _ initMState hall]
    simp [initMState]
  refine ⟨?_, ?_, ?_, ?_, ?_, ?_, ?_⟩
  · show precisionOf (metricsFold gt []) = 0
    rw [hfold]; rfl
  · show recallOf (metricsFold gt []) = 0
    rw [hfold]
    unfold recallOf
    by_cases hc : (0 : Nat) +
        ((allTimestamps gt []).map (fun t => (dictGetD gt t ∅).card)).sum > 0
    · simp_all
    · simp_all
  · show f1Of (metricsFold gt []) = 0
    have hp : precisionOf (metricsFold gt []) = 0 := by rw [hfold]; rfl
    have hr : recallOf (metricsFold gt []) = 0 := by
      rw [hfold]
      unfold recallOf
      by_cases hc : (0 : Nat) +
          ((allTimestamps gt []).map (fun t => (dictGetD gt t ∅).card)).sum > 0
      · simp_all
      · simp_all
    unfold f1Of
    rw [hp, hr]
    norm_num
  · show (metricsFold gt []).details.correct = []
    rw [hfold]
  · show (metricsFold gt []).details.incorrect_objects = []
    rw [hfold]
  · show (metricsFold gt []).details.extra_timestamps = []
    rw [hfold]
  · show (metricsFold gt []).details.missing_timestamps.map
        MissingEntry.timestamp = allTimestamps gt []
    rw [hfold]
    simp [List.map_map]
    exact List.map_id _

/-- Witness for `empty_prediction_result` at a concrete non-empty truth. -/
theorem empty_prediction_result_witness :
    ([("00:00:28", ({1} : Finset Int))] : TMap) ≠ [] ∧
    (calculate_metrics [("00:00:28", ({1} : Finset Int))] []).2.1 = 0 :=
  ⟨by decide,
    (empty_prediction_result [("00:00:28", ({1} : Finset Int))]
      (by decide)).2.1⟩

/-! ## The four buckets partition the key set -/

lemma metricsStep_extra (gt pred : TMap) (st : MState) (t : String)
    (h1 : dictContains gt t = false) :
    metricsStep gt pred st t =
      ⟨st.tp, st.fp + (dictGetD pred t ∅).card, st.fn,
        ⟨st.details.correct, st.details.missing_timestamps,
          st.details.extra_timestamps ++
            [⟨t, pySortedZ (dictGetD pred t ∅)⟩],
          st.details.incorrect_objects⟩⟩ := by
  simp only [metricsStep]
  rw [if_pos (by simp [h1])]

lemma metricsStep_missing (gt pred : TMap) (st : MState) (t : String)
    (h1 : dictContains gt t = true) (h2 : dictContains pred t = false) :
    metricsStep gt pred st t =
      ⟨st.tp, st.fp, st.fn + (dictGetD gt t ∅).card,
        ⟨st.details.correct,
          st.details.missing_timestamps ++
            [⟨t, pySortedZ (dictGetD gt t ∅)⟩],
          st.details.extra_timestamps, st.details.incorrect_objects⟩⟩ := by
  simp only [metricsStep]
  rw [if_neg (by simp [h1]), if_pos (by simp [h2])]

lemma metricsStep_exact (gt pred : TMap) (st : MState) (t : String)
    (h1 : dictContains gt t = true) (h2 : dictContains pred t = true)
    (h3 : dictGetD gt t ∅ = dictGetD pred t ∅) :
    metricsStep gt pred st t =
      ⟨st.tp + (dictGetD gt t ∅ ∩ dictGetD pred t ∅).card,
        st.fp + (dictGetD pred t ∅ \ dictGetD gt t ∅).card,
        st.fn + (dictGetD gt t ∅ \ dictGetD pred t ∅).card,
        ⟨st.details.correct ++ [⟨t, pySortedZ (dictGetD gt t ∅)⟩],
          st.details.missing_timestamps, st.details.extra_timestamps,
          st.details.incorrect_objects⟩⟩ := by
  simp only [metricsStep]
  rw [if_neg (by simp [h1]), if_neg (by simp [h2]), if_pos h3]

lemma metricsStep_incorrect (gt pred : TMap) (st : MState) (t : String)
    (h1 : dictContains gt t = true) (h2 : dictContains pred t = true)
    (h3 : ¬ dictGetD gt t ∅ = dictGetD pred t ∅) :
    metricsStep gt pred st t =
      ⟨st.tp + (dictGetD gt t ∅ ∩ dictGetD pred t ∅).card,
        st.fp + (dictGetD pred t ∅ \ dictGetD gt t ∅).card,
        st.fn + (dictGetD gt t ∅ \ dictGetD pred t ∅).card,
        ⟨st.details.correct, st.details.missing_timestamps,
          st.details.extra_timestamps,
          st.details.incorrect_objects ++
            [⟨t, pySortedZ (dictGetD gt t ∅), pySortedZ (dictGetD pred t ∅),
              pySortedZ (dictGetD gt t ∅ ∩ dictGetD pred t ∅),
              pySortedZ (dictGetD pred t ∅ \ dictGetD gt t ∅),
              pySortedZ (dictGetD gt t ∅ \ dictGetD pred t ∅)⟩]⟩⟩ := by
  simp only [metricsStep]
  rw [if_neg (by simp [h1]), if_neg (by simp [h2]), if_neg h3]

lemma bucket_step (gt pred : TMap) (st : MState) (t : String) :
    List.Perm (bucketTimestamps (metricsStep gt pred st t).details)
      (bucketTimestamps st.details ++ [t]) := by
  by_cases h1 : dictContains gt t = true
  · by_cases h2 : dictContains pred t = true
    · by_cases h3 : dictGetD gt t ∅ = dictGetD pred t ∅
      · rw [metricsStep_exact gt pred st t h1 h2 h3, ← Multiset.coe_eq_coe]
        simp only [bucketTimestamps, List.map_append, List.map_cons,
          List.map_nil]
        simp only [← Multiset.coe_add, ← Multiset.cons_coe,
          ← Multiset.singleton_add]
        abel
      · rw [metricsStep_incorrect gt pred st t h1 h2 h3,
          ← Multiset.coe_eq_coe]
        simp only [bucketTimestamps, List.map_append, List.map_cons,
          List.map_nil]
        simp only [← Multiset.coe_add, ← Multiset.cons_coe,
          ← Multiset.singleton_add]
        abel
    · rw [metricsStep_missing gt pred st t h1 (by simpa using h2),
        ← Multiset.coe_eq_coe]
      simp only [bucketTimestamps, List.map_append, List.map_cons,
        List.map_nil]
      simp only [← Multiset.coe_add, ← Multiset.cons_coe,
        ← Multiset.singleton_add]
      abel
  · rw [metricsStep_extra gt pred st t (by simpa using h1),
      ← Multiset.coe_eq_coe]
    simp only [bucketTimestamps, List.map_append, List.map_cons,
      List.map_nil]
    simp only [← Multiset.coe_add, ← Multiset.cons_coe,
      ← Multiset.singleton_add]
    abel

lemma bucket_fold (gt pred : TMap) (ts : List String) (st : MState) :
    List.Perm (bucketTimestamps ((ts.foldl (metricsStep gt pred) st).details))
      (bucketTimestamps st.details ++ ts) := by
  induction ts generalizing st with
  | nil => simp
  | cons t rest ih =>
    rw [List.foldl_cons]
    have h1 := ih (metricsStep gt pred st t)
    have h2 := (bucket_step gt pred st t).append_right rest
    have h3 : (bucketTimestamps st.details ++ [t]) ++ rest =
        bucketTimestamps st.details ++ (t :: rest) := by simp
    exact h1.trans (h3 ▸ h2)

/-- C1: the per-timestamp classification places each key of
`keys(truth) ∪ keys(prediction)` into exactly one of the four buckets —
the concatenated bucket timestamps are a permutation of the (duplicate-free)
sorted key union, and contain no duplicates. -/
theorem classification_partitions (gt pred : TMap) :
    List.Perm (bucketTimestamps (calculate_metrics gt pred).2.2.2)
      (allTimestamps gt pred) ∧
    (bucketTimestamps (calculate_metrics gt pred).2.2.2).Nodup := by
  have hb : (calculate_metrics gt pred).2.2.2 =
      (metricsFold gt pred).details := rfl
  have h := bucket_fold gt pred (allTimestamps gt pred) initMState
  have hinit : bucketTimestamps initMState.details = [] := rfl
  rw [hinit, List.nil_append] at h
  rw [hb]
  exact ⟨h, h.nodup_iff.mpr (nodup_allTimestamps gt pred)⟩

/-! ## Counter sums: tp + fn and tp + fp -/

lemma dictContains_false_of_not_mem {α : Type} (d : List (String × α))
    (k : String) (h : k ∉ d.map Prod.fst) : dictContains d k = false := by
  rcases hb : dictContains d k with _ | _
  · rfl
  · exact absurd ((dictContains_iff d k).mp hb) h

lemma getD_card_zero_of_not_contains (d : TMap) (t : String)
    (h : dictContains d t = false) : (dictGetD d t ∅).card = 0 := by
  have hm : t ∉ d.map Prod.fst := by
    intro hmem
    rw [(dictContains_iff d t).mpr hmem] at h
    cases h
  rw [dictGetD_of_not_mem d t ∅ hm]
  simp

lemma step_tp_fn (gt pred : TMap) (st : MState) (t : String) :
    (metricsStep gt pred st t).tp + (metricsStep gt pred st t).fn =
      st.tp + st.fn + (dictGetD gt t ∅).card := by
  by_cases h1 : dictContains gt t = true
  · by_cases h2 : dictContains pred t = true
    · by_cases h3 : dictGetD gt t ∅ = dictGetD pred t ∅
      · rw [metricsStep_exact gt pred st t h1 h2 h3]
        have hc := Finset.card_inter_add_card_sdiff (dictGetD gt t ∅)
          (dictGetD pred t ∅)
        simp only [MState.tp, MState.fn]
        omega
      · rw [metricsStep_incorrect gt pred st t h1 h2 h3]
        have hc := Finset.card_inter_add_card_sdiff (dictGetD gt t ∅)
          (dictGetD pred t ∅)
        simp only [MState.tp, MState.fn]
        omega
    · rw [metricsStep_missing gt pred st t h1 (by simpa using h2)]
      simp only [MState.tp, MState.fn]
      omega
  · have h1' : dictContains gt t = false := by simpa using h1
    rw [metricsStep_extra gt pred st t h1']
    have h0 := getD_card_zero_of_not_contains gt t h1'
    simp only [MState.tp, MState.fn]
    omega

lemma step_tp_fp (gt pred : TMap) (st : MState) (t : String) :
    (metricsStep gt pred st t).tp + (metricsStep gt pred st t).fp =
      st.tp + st.fp + (dictGetD pred t ∅).card := by
  by_cases h1 : dictContains gt t = true
  · by_cases h2 : dictContains pred t = true
    · have hc : (dictGetD gt t ∅ ∩ dictGetD pred t ∅).card +
          (dictGetD pred t ∅ \ dictGetD gt t ∅).card =
          (dictGetD pred t ∅).card := by
        rw [Finset.inter_comm]
        exact Finset.card_inter_add_card_sdiff (dictGetD pred t ∅)
          (dictGetD gt t ∅)
      by_cases h3 : dictGetD gt t ∅ = dictGetD pred t ∅
      · rw [metricsStep_exact gt pred st t h1 h2 h3]
        simp only [MState.tp, MState.fp]
        omega
      · rw [metricsStep_incorrect gt pred st t h1 h2 h3]
        simp only [MState.tp, MState.fp]
        omega
    · have h2' : dictContains pred t = false := by simpa using h2
      rw [metricsStep_missing gt pred st t h1 h2']
      have h0 := getD_card_zero_of_not_contains pred t h2'
      simp only [MState.tp, MState.fp]
      omega
  · rw [metricsStep_extra gt pred st t (by simpa using h1)]
    simp only [MState.tp, MState.fp]
    omega

lemma foldl_tp_fn (gt pred : TMap) (ts : List String) (st : MState) :
    (ts.foldl (metricsStep gt pred) st).tp +
        (ts.foldl (metricsStep gt pred) st).fn =
      st.tp + st.fn + (ts.map (fun t => (dictGetD gt t ∅).card)).sum := by
  induction ts generalizing st with
  | nil => simp
  | cons t rest ih =>
    rw [List.foldl_cons, List.map_cons, List.sum_cons, ih, step_tp_fn]
    omega

lemma foldl_tp_fp (gt pred : TMap) (ts : List String) (st : MState) :
    (ts.foldl (metricsStep gt pred) st).tp +
        (ts.foldl (metricsStep gt pred) st).fp =
      st.tp + st.fp + (ts.map (fun t => (dictGetD pred t ∅).card)).sum := by
  induction ts generalizing st with
  | nil => simp
  | cons t rest ih =>
    rw [List.foldl_cons, List.map_cons, List.sum_cons, ih, step_tp_fp]
    omega

lemma sum_getD_card (d : TMap) (L : List String) (hnd : L.Nodup)
    (hk : (d.map Prod.fst).Nodup)
    (hsub : ∀ k ∈ d.map Prod.fst, k ∈ L) :
    (L.map (fun t => (dictGetD d t ∅).card)).sum =
      (d.map (fun p => p.2.card)).sum := by
  induction d generalizing L with
  | nil =>
    have hz : ∀ t ∈ L, (dictGetD ([] : TMap) t ∅).card = 0 := by
      intro t _
      rfl
    rw [List.map_congr_left hz]
    simp
  | cons p rest ih =>
    obtain ⟨k, s⟩ := p
    have hkL : k ∈ L := hsub k (by simp)
    have hperm : List.Perm L (k :: L.erase k) := List.perm_cons_erase hkL
    rw [(hperm.map (fun t => (dictGetD ((k, s) :: rest) t ∅).card)).sum_eq]
    rw [List.map_cons, List.sum_cons]
    have hself : dictGetD ((k, s) :: rest) k ∅ = s := by
      simp [dictGetD, List.find?_cons]
    rw [hself]
    have hknotr : k ∉ rest.map Prod.fst := by
      have := hk
      simp only [List.map_cons, List.nodup_cons] at this
      exact this.1
    have hcong : (L.erase k).map
          (fun t => (dictGetD ((k, s) :: rest) t ∅).card) =
        (L.erase k).map (fun t => (dictGetD rest t ∅).card) := by
      apply List.map_congr_left
      intro t htmem
      have htne : t ≠ k := ((hnd.mem_erase_iff).mp htmem).1
      have hfind : ((k, s) :: rest).find? (fun p => p.1 = t) =
          rest.find? (fun p => p.1 = t) := by
        rw [List.find?_cons_of_neg]
        simp [htne.symm]
      simp [dictGetD, hfind]
    rw [hcong]
    rw [List.map_cons, List.sum_cons]
    have hkrest : (rest.map Prod.fst).Nodup := by
      have h2 : (k ∉ rest.map Prod.fst) ∧ (rest.map Prod.fst).Nodup := by
        simpa only [List.map_cons, List.nodup_cons] using hk
      exact h2.2
    have hih := ih (L.erase k) (hnd.erase k) hkrest
      (by
        intro u hu
        have huL : u ∈ L := hsub u (by simp [hu])
        have hune : u ≠ k := fun he => hknotr (he ▸ hu)
        exact List.mem_erase_of_ne hune |>.mpr huL)
    rw [hih]

/-- C2: the counters accumulated by `calculate_metrics` satisfy
`tp + fn = Σ |truth[k]|` and `tp + fp = Σ |prediction[k]|`. -/
theorem counters_sum_invariant (gt pred : TMap)
    (hg : (gt.map Prod.fst).Nodup) (hp : (pred.map Prod.fst).Nodup) :
    (metricsFold gt pred).tp + (metricsFold gt pred).fn =
      (gt.map (fun p => p.2.card)).sum ∧
    (metricsFold gt pred).tp + (metricsFold gt pred).fp =
      (pred.map (fun p => p.2.card)).sum := by
  constructor
  · have h := foldl_tp_fn gt pred (allTimestamps gt pred) initMState
    rw [metricsFold] at *
    rw [h]
    have hs := sum_getD_card gt (allTimestamps gt pred)
      (nodup_allTimestamps gt pred) hg
      (fun k hk => (mem_allTimestamps gt pred k).mpr (Or.inl hk))
    simp [initMState, hs]
  · have h := foldl_tp_fp gt pred (allTimestamps gt pred) initMState
    rw [metricsFold] at *
    rw [h]
    have hs := sum_getD_card pred (allTimestamps gt pred)
      (nodup_allTimestamps gt pred) hp
      (fun k hk => (mem_allTimestamps gt pred k).mpr (Or.inr hk))
    simp [initMState, hs]

/-- Witness for `counters_sum_invariant` at a concrete input. -/
theorem counters_sum_invariant_witness :
    ((([("00:00:28", ({1, 2} : Finset Int)), ("00:00:30", {3})] : TMap).map
        Prod.fst).Nodup) ∧
    ((([("00:00:30", ({3, 4} : Finset Int))] : TMap).map Prod.fst).Nodup) ∧
    (metricsFold [("00:00:28", {1, 2}), ("00:00:30", {3})]
          [("00:00:30", {3, 4})]).tp +
        (metricsFold [("00:00:28", {1, 2}), ("00:00:30", {3})]
          [("00:00:30", {3, 4})]).fn = 3 :=
  ⟨by decide, by decide, by
    have h := (counters_sum_invariant
      [("00:00:28", {1, 2}), ("00:00:30", {3})] [("00:00:30", {3, 4})]
      (by decide) (by decide)).1
    rw [h]
    decide⟩

/-! ## The fenced-block regex: leftmost match, `json` tag required -/

lemma listStartsWith_self_append (p r : List Char) :
    listStartsWith p (p ++ r) = true := by
  induction p with
  | nil => rfl
  | cons a as ih => simp [listStartsWith, ih]

lemma listStartsWith_head (p : List Char) (c : Char) (w : List Char)
    (h : listStartsWith p (c :: w) = true) : p.head?.getD c = c := by
  cases p with
  | nil => rfl
  | cons q qs =>
    simp only [listStartsWith, Bool.and_eq_true, decide_eq_true_eq] at h
    simp [h.1]

lemma dropWhile_append_of_ne_nil (p : Char → Bool) (l₁ l₂ : List Char)
    (h : l₁.dropWhile p ≠ []) :
    (l₁ ++ l₂).dropWhile p = l₁.dropWhile p ++ l₂ := by
  induction l₁ with
  | nil => exact absurd rfl h
  | cons a t ih =>
    rcases hpa : p a with _ | _
    · simp [List.cons_append, List.dropWhile_cons, hpa]
    · have h' : t.dropWhile p ≠ [] := by
        rw [List.dropWhile_cons, if_pos hpa] at h
        exact h
      simp [List.cons_append, List.dropWhile_cons, hpa, ih h']

lemma dropWhile_append_of_eq_nil (p : Char → Bool) (l₁ l₂ : List Char)
    (h : l₁.dropWhile p = []) :
    (l₁ ++ l₂).dropWhile p = l₂.dropWhile p := by
  induction l₁ with
  | nil => rfl
  | cons a t ih =>
    rcases hpa : p a with _ | _
    · rw [List.dropWhile_cons, if_neg (by simp [hpa])] at h
      cases h
    · rw [List.dropWhile_cons, if_pos hpa] at h
      simp [List.cons_append, List.dropWhile_cons, hpa, ih h]

/-- Stripping a chunk whose text is a well-formed tagged fence followed by
anything leaves the fence prefix, the body and the closing fence intact
(only trailing whitespace of the trailer is removed). -/
lemma pyStripL_fence (inner rest : List Char) :
    ∃ r', pyStripL ("```json\n[".data ++ (inner ++ ("]\n```".data ++ rest))) =
      "```json\n[".data ++ (inner ++ ("]\n```".data ++ r')) := by
  unfold pyStripL
  have hPeq : ("```json\n[".data).dropWhile isPyWs = "```json\n[".data := by
    decide
  have hPne : ("```json\n[".data).dropWhile isPyWs ≠ [] := by decide
  rw [dropWhile_append_of_ne_nil isPyWs _ _ hPne, hPeq]
  rw [List.reverse_append, List.reverse_append, List.reverse_append]
  have hSne : ("]\n```".data.reverse).dropWhile isPyWs ≠ [] := by decide
  have hSeq : ("]\n```".data.reverse).dropWhile isPyWs =
      "]\n```".data.reverse := by decide
  simp only [List.append_assoc]
  by_cases hR : rest.reverse.dropWhile isPyWs = []
  · refine ⟨[], ?_⟩
    rw [dropWhile_append_of_eq_nil isPyWs _ _ hR,
      dropWhile_append_of_ne_nil isPyWs _ _ hSne, hSeq]
    simp [List.reverse_append]
  · refine ⟨(rest.reverse.dropWhile isPyWs).reverse, ?_⟩
    rw [dropWhile_append_of_ne_nil isPyWs _ _ hR]
    simp [List.reverse_append]

lemma fenceCloseOk_of_startsWith (cs : List Char) (hne : cs ≠ [])
    (h : listStartsWith "```".data cs = true) : fenceCloseOk cs = true := by
  cases cs with
  | nil => exact absurd rfl hne
  | cons c rest =>
    simp only [fenceCloseOk]
    simp [h]

lemma fenceCloseOk_cons_ws (c : Char) (rest : List Char)
    (hw : isPyWs c = true) (hr : fenceCloseOk rest = true) :
    fenceCloseOk (c :: rest) = true := by
  simp only [fenceCloseOk]
  simp [hw, hr]

lemma append_ne_nil_of_left (l₁ l₂ : List Char) (h : l₁.length ≠ 0) :
    l₁ ++ l₂ ≠ [] := by
  intro hc
  have hlen := congrArg List.length hc
  rw [List.length_append, List.length_nil] at hlen
  omega

lemma fenceCloseOk_tail (r : List Char) :
    fenceCloseOk ("\n```".data ++ r) = true := by
  have h1 : "\n```".data ++ r = '\n' :: ("```".data ++ r) := by
    have h0 : "\n```".data = '\n' :: "```".data := by decide
    rw [h0]
    rfl
  rw [h1]
  apply fenceCloseOk_cons_ws
  · decide
  · exact fenceCloseOk_of_startsWith ("```".data ++ r)
      (append_ne_nil_of_left _ _ (by decide))
      (listStartsWith_self_append _ _)

lemma fenceFindClose_no_rbracket (inner : List Char) (acc tail : List Char)
    (hin : ']' ∉ inner) (htail : fenceCloseOk tail = true) :
    fenceFindClose acc (inner ++ ']' :: tail) =
      some (acc.reverse ++ inner) := by
  induction inner generalizing acc with
  | nil =>
    simp only [List.nil_append, fenceFindClose]
    rw [if_pos (by simp [htail])]
    simp
  | cons c cs ih =>
    have hcne : ¬ c = ']' := fun he => hin (by simp [he])
    rw [List.cons_append]
    simp only [fenceFindClose]
    rw [if_neg (by simp [hcne])]
    rw [ih (c :: acc) (fun hmem => hin (by simp [hmem]))]
    simp

lemma tryFenceAt_fence (inner r : List Char) (hin : ']' ∉ inner) :
    tryFenceAt ("\n[".data ++ (inner ++ ("]\n```".data ++ r))) =
      some ('[' :: inner ++ [']']) := by
  have h2 : "]\n```".data ++ r = ']' :: ("\n```".data ++ r) := by
    have h3 : "]\n```".data = ']' :: "\n```".data := by decide
    rw [h3]
    rfl
  have h0 : "\n[".data ++ (inner ++ ("]\n```".data ++ r)) =
      '\n' :: '[' :: (inner ++ (']' :: ("\n```".data ++ r))) := by
    have h1 : "\n[".data = ['\n', '['] := by decide
    rw [h1, h2]
    rfl
  rw [h0]
  have hfc := fenceFindClose_no_rbracket inner [] ("\n```".data ++ r) hin
    (fenceCloseOk_tail r)
  simp only [List.reverse_nil, List.nil_append] at hfc
  show (match fenceFindClose [] (inner ++ (']' :: ("\n```".data ++ r))) with
    | some body => some (('[' :: body) ++ [']'])
    | Option.none => Option.none) = some ('[' :: inner ++ [']'])
  rw [hfc]

lemma reSearchJsonFence_here (cs : List Char) (g : List Char) (hne : cs ≠ [])
    (h1 : listStartsWith "```json".data cs = true)
    (h2 : tryFenceAt (cs.drop 7) = some g) :
    reSearchJsonFence cs = some g := by
  cases cs with
  | nil => exact absurd rfl hne
  | cons c rest =>
    simp only [reSearchJsonFence]
    rw [if_pos h1, h2]

/-- The regex finds the leftmost `` ```json ``-tagged fence: on a chunk of
the shape `` ```json\n[inner]\n``` `` followed by anything, the captured
group is exactly `[inner]`, independent of the trailer. -/
lemma extract_tagged_fence (inner rest : List Char) (hin : ']' ∉ inner) :
    extractCandidate (String.mk
        ("```json\n[".data ++ (inner ++ ("]\n```".data ++ rest)))) =
      some ('[' :: inner ++ [']']) := by
  unfold extractCandidate
  have hdata : (String.mk
      ("```json\n[".data ++ (inner ++ ("]\n```".data ++ rest)))).data =
      "```json\n[".data ++ (inner ++ ("]\n```".data ++ rest)) := rfl
  rw [hdata]
  obtain ⟨r', hstrip⟩ := pyStripL_fence inner rest
  rw [hstrip]
  dsimp only
  have hsearch : reSearchJsonFence
      ("```json\n[".data ++ (inner ++ ("]\n```".data ++ r'))) =
      some ('[' :: inner ++ [']']) := by
    apply reSearchJsonFence_here
    · exact append_ne_nil_of_left _ _ (by decide)
    · have hsplit : "```json\n[".data = "```json".data ++ "\n[".data := by
        decide
      rw [hsplit, List.append_assoc]
      exact listStartsWith_self_append _ _
    · have hsplit : "```json\n[".data = "```json".data ++ "\n[".data := by
        decide
      rw [hsplit, List.append_assoc]
      have hlen : ("```json".data).length = 7 := by decide
      rw [← hlen, List.drop_left]
      exact tryFenceAt_fence inner r' hin
  rw [hsearch]

/-- C6 counterexample: a fenced block *without* a language tag is not
located — the claim's "optional language tag" fails on the code, whose
regex requires the literal `json` tag.  The chunk contributes nothing. -/
theorem untagged_fence_not_located :
    extractCandidate "```\n[\x7b\"00:00:31\": [2,4]\x7d]\n```" = Option.none ∧
    parse_prediction_json ["```\n[\x7b\"00:00:31\": [2,4]\x7d]\n```"] =
      Except.ok [] := by
  constructor
  · decide
  · decide

/-- C6 (amended): only a fence whose opening marker carries the literal
`json` tag is located; for every body `[inner]` (no `]` inside), the block
is found and captured, and its timestamp entries are recorded. -/
theorem json_tagged_fence_located (inner : List Char) (hin : ']' ∉ inner) :
    extractCandidate (String.mk
        ("```json\n[".data ++ (inner ++ "]\n```".data))) =
      some ('[' :: inner ++ [']']) ∧
    parse_prediction_json ["```json\n[\x7b\"00:00:31\": [2,4]\x7d]\n```"] =
      Except.ok [("00:00:31", {PyVal.int 2, PyVal.int 4})] := by
  constructor
  · have h := extract_tagged_fence inner [] hin
    simpa using h
  · decide

/-- Witness for `json_tagged_fence_located` at a concrete fence body. -/
theorem json_tagged_fence_located_witness :
    (']' ∉ "\x7b\"00:00:31\": 7\x7d".data) ∧
    extractCandidate (String.mk
        ("```json\n[".data ++ ("\x7b\"00:00:31\": 7\x7d".data ++
          "]\n```".data))) =
      some ('[' :: "\x7b\"00:00:31\": 7\x7d".data ++ [']']) :=
  ⟨by decide,
    (json_tagged_fence_located "\x7b\"00:00:31\": 7\x7d".data
      (by decide)).1⟩

/-- C9: when a chunk contains two or more `` ```json `` fenced blocks, the
regex search extracts only the first one — the captured group is determined
by the first block alone, whatever follows it; concretely, entries appearing
solely in a later block are never recorded. -/
theorem first_fence_block_wins (inner rest : List Char) (hin : ']' ∉ inner) :
    extractCandidate (String.mk
        ("```json\n[".data ++ (inner ++ ("]\n```".data ++ rest)))) =
      some ('[' :: inner ++ [']']) ∧
    parse_prediction_json
        ["```json\n[\x7b\"a\": [1]\x7d]\n```\nand\n```json\n[\x7b\"b\": [2]\x7d]\n```"] =
      Except.ok [("a", {PyVal.int 1})] := by
  constructor
  · exact extract_tagged_fence inner rest hin
  · decide

/-- Witness for `first_fence_block_wins`: a second fenced block follows. -/
theorem first_fence_block_wins_witness :
    (']' ∉ "\x7b\"a\": 1\x7d".data) ∧
    extractCandidate (String.mk
        ("```json\n[".data ++ ("\x7b\"a\": 1\x7d".data ++
          ("]\n```".data ++ "\n```json\n[\x7b\"b\": [2]\x7d]\n```".data)))) =
      some ('[' :: "\x7b\"a\": 1\x7d".data ++ [']']) :=
  ⟨by decide,
    (first_fence_block_wins "\x7b\"a\": 1\x7d".data
      "\n```json\n[\x7b\"b\": [2]\x7d]\n```".data (by decide)).1⟩

/-! ## Ground-truth parsing: which lines raise -/

lemma foldlM_except_ok {α β : Type} (f : β → α → Except Unit β) (l : List α)
    (h : ∀ a ∈ l, ∀ acc, exceptIsOk (f acc a) = true) :
    ∀ b, exceptIsOk (l.foldlM f b) = true := by
  induction l with
  | nil => intro b; rfl
  | cons a rest ih =>
    intro b
    have ha := h a (by simp) b
    rcases hfa : f b a with e | b'
    · rw [hfa] at ha
      cases ha
    · rw [List.foldlM_cons, hfa]
      exact ih (fun x hx acc => h x (by simp [hx]) acc) b'

lemma mapM_isSome {α β : Type} (f : α → Option β) (l : List α)
    (h : ∀ a ∈ l, (f a).isSome = true) : (l.mapM f).isSome = true := by
  induction l with
  | nil => rfl
  | cons a rest ih =>
    rcases hfa : f a with _ | b
    · have ha := h a (by simp)
      rw [hfa] at ha
      cases ha
    · have hrest := ih (fun x hx => h x (by simp [hx]))
      rcases hm : rest.mapM f with _ | bs
      · rw [hm] at hrest
        cases hrest
      · rw [List.mapM_cons, hfa, hm]
        rfl

/-- C4 counterexample: the ground-truth line `"00:00:28 ,"` — an id-less
second field — makes `int('')` raise `ValueError`, so `parse_ground_truth`
does raise on malformed input. -/
theorem parse_ground_truth_raises :
    parse_ground_truth "00:00:28 ," = Except.error () := by decide

/-- C4 (amended): blank lines and lines with fewer than two fields are
skipped without raising, and `parse_ground_truth` returns without raising
whenever every line's comma-separated id tokens are all valid integers; a
non-integer token (such as the empty token of an id-less second field)
raises instead. -/
theorem parse_ground_truth_total (gt_text : String)
    (h : (splitOnChar '\n' (pyStripL gt_text.data)).all gtLineOkB = true) :
    exceptIsOk (parse_ground_truth gt_text) = true := by
  unfold parse_ground_truth
  apply foldlM_except_ok
  intro lineCs hmem acc
  have hline : gtLineOkB lineCs = true := by
    rw [List.all_eq_true] at h
    exact h lineCs hmem
  by_cases hblank : pyStripL lineCs = []
  · simp [hblank, exceptIsOk]
  · rw [if_neg (by simpa using hblank)]
    unfold gtLineOkB at hline
    rcases hsplit : pySplitWsL (pyStripL lineCs) with _ | ⟨ts, _ | ⟨ids, rest3⟩⟩
    · rfl
    · rfl
    · rw [hsplit] at hline
      have hline' : (splitOnChar ',' ids).all
          (fun tok => (pyIntL (pyStripL tok)).isSome) = true := hline
      rw [List.all_eq_true] at hline'
      have hm : ((splitOnChar ',' ids).mapM
          (fun x => pyIntL (pyStripL x))).isSome = true :=
        mapM_isSome _ _ (fun tok htok => hline' tok htok)
      rcases hmm : (splitOnChar ',' ids).mapM
          (fun x => pyIntL (pyStripL x)) with _ | vals
      · rw [hmm] at hm
        cases hm
      · show exceptIsOk (match (splitOnChar ',' ids).mapM
              (fun x => pyIntL (pyStripL x)) with
          | some ids2 =>
            Except.ok (dictInsert acc (String.mk ts) ids2.toFinset)
          | Option.none => Except.error ()) = true
        rw [hmm]
        rfl

/-- Witness for `parse_ground_truth_total`: a text with a well-formed line,
a blank line and a one-field line parses without raising. -/
theorem parse_ground_truth_total_witness :
    ((splitOnChar '\n'
        (pyStripL "00:00:28 1,4\n\nskipme".data)).all gtLineOkB = true) ∧
    exceptIsOk (parse_ground_truth "00:00:28 1,4\n\nskipme") = true :=
  ⟨by decide, parse_ground_truth_total "00:00:28 1,4\n\nskipme" (by decide)⟩

/-! ## Prediction extraction: uncaught TypeError, multi-key objects -/

/-- C5 counterexample: an element whose value cannot be converted to a set
(`5` is not iterable) raises `TypeError`, which the `except
json.JSONDecodeError` handler does not catch: the error propagates out of
`parse_prediction_json` and the remaining elements and chunks are lost. -/
theorem set_typeerror_counterexample :
    parse_prediction_json
        ["[\x7b\"a\": 5\x7d, \x7b\"b\": [1]\x7d]", "[\x7b\"c\": [2]\x7d]"] =
      Except.error () := by decide

/-- C5 (amended): only JSON-decode failures are recoverable per chunk; a
parsed element whose value cannot be converted to a set makes the whole
extraction raise — the element is not skipped, and the remaining elements
and chunks are not processed. -/
theorem set_typeerror_aborts (d : Predictions) (k : String) (v : PyJson)
    (items : List PyJson) (c : String) (rest : List String)
    (hv : pySet v = Except.error ())
    (hc : processChunk d c = Except.error ()) :
    processItems (PyJson.obj [(k, v)] :: items) d = Except.error () ∧
    parsePredictionFrom d (c :: rest) = Except.error () := by
  constructor
  · simp [processItems, List.foldlM_cons, hv]
  · simp [parsePredictionFrom, hc]

/-- Witness for `set_typeerror_aborts` at a concrete chunk list. -/
theorem set_typeerror_aborts_witness :
    (pySet (PyJson.int 5) = Except.error ()) ∧
    (processChunk [] "[\x7b\"a\": 5\x7d]" = Except.error ()) ∧
    parsePredictionFrom [] ["[\x7b\"a\": 5\x7d]", "[\x7b\"c\": [2]\x7d]"] =
      Except.error () :=
  ⟨rfl, by decide,
    (set_typeerror_aborts [] "a" (PyJson.int 5) [] "[\x7b\"a\": 5\x7d]"
      ["[\x7b\"c\": [2]\x7d]"] rfl (by decide)).2⟩

lemma dictContains_dictInsert_self {α : Type} (d : List (String × α))
    (k : String) (v : α) : dictContains (dictInsert d k v) k = true := by
  unfold dictInsert
  by_cases hc : d.any (fun p => p.1 = k) = true
  · rw [if_pos hc]
    obtain ⟨p, hp, hpk⟩ := List.any_eq_true.mp hc
    simp only [decide_eq_true_eq] at hpk
    rw [dictContains, List.any_eq_true]
    refine ⟨(k, v), List.mem_map.mpr ⟨p, hp, by simp [hpk]⟩, by simp⟩
  · rw [if_neg hc]
    simp [dictContains, List.any_append]

lemma dictContains_dictInsert_mono {α : Type} (d : List (String × α))
    (k k' : String) (v : α) (h : dictContains d k = true) :
    dictContains (dictInsert d k' v) k = true := by
  unfold dictInsert
  obtain ⟨p, hp, hpk⟩ := List.any_eq_true.mp h
  simp only [decide_eq_true_eq] at hpk
  by_cases hc : d.any (fun p => p.1 = k') = true
  · rw [if_pos hc]
    rw [dictContains, List.any_eq_true]
    by_cases hkk : p.1 = k'
    · exact ⟨(k', v), List.mem_map.mpr ⟨p, hp, by simp [hkk]⟩,
        by simp [← hkk, hpk]⟩
    · exact ⟨p, List.mem_map.mpr ⟨p, hp, by simp [hkk]⟩, by simp [hpk]⟩
  · rw [if_neg hc]
    rw [dictContains, List.any_eq_true]
    exact ⟨p, by simp [hp], by simp [hpk]⟩

lemma foldlM_insert_preserves (qs : List (String × PyJson))
    (d d' : Predictions) (k : String)
    (hfold : (qs.foldlM (fun d0 p => do
        let s ← pySet p.2
        pure (dictInsert d0 p.1 s)) d) = Except.ok d')
    (h : dictContains d k = true) : dictContains d' k = true := by
  induction qs generalizing d with
  | nil =>
    cases hfold
    exact h
  | cons q qs ih =>
    rw [List.foldlM_cons] at hfold
    rcases hsq : pySet q.2 with e | s
    · rw [hsq] at hfold
      cases hfold
    · rw [hsq] at hfold
      exact ih (dictInsert d q.1 s) hfold
        (dictContains_dictInsert_mono d k q.1 s h)

lemma foldlM_insert_ok (entries : List (String × PyJson)) (d : Predictions)
    (h : ∀ p ∈ entries, exceptIsOk (pySet p.2) = true) :
    ∃ d', (entries.foldlM (fun d0 p => do
        let s ← pySet p.2
        pure (dictInsert d0 p.1 s)) d) = Except.ok d' ∧
      ∀ p ∈ entries, dictContains d' p.1 = true := by
  induction entries generalizing d with
  | nil => exact ⟨d, rfl, by simp⟩
  | cons q qs ih =>
    have hq := h q (by simp)
    rcases hsq : pySet q.2 with e | s
    · rw [hsq] at hq
      cases hq
    · obtain ⟨d', h1, h3⟩ := ih (dictInsert d q.1 s)
        (fun p hp => h p (by simp [hp]))
      refine ⟨d', ?_, ?_⟩
      · rw [List.foldlM_cons, hsq]
        exact h1
      · intro p hp
        rcases List.mem_cons.mp hp with he | hm
        · rw [he]
          exact foldlM_insert_preserves qs (dictInsert d q.1 s) d' q.1 h1
            (dictContains_dictInsert_self d q.1 s)
        · exact h3 p hm

/-- C10: a parsed array element that is an object with several timestamp
keys has every `(timestamp, id-list)` pair recorded — the per-element loop
folds over all of `item.items()`, then continues with the remaining
elements; no multi-key object is skipped or truncated. -/
theorem multi_key_object_records_all (entries : List (String × PyJson))
    (rest : List PyJson) (d : Predictions)
    (h : ∀ p ∈ entries, exceptIsOk (pySet p.2) = true) :
    ∃ d', processItems (PyJson.obj entries :: rest) d = processItems rest d' ∧
      ∀ p ∈ entries, dictContains d' p.1 = true := by
  obtain ⟨d', h1, h3⟩ := foldlM_insert_ok entries d h
  refine ⟨d', ?_, h3⟩
  show (match entries.foldlM (fun d0 p => do
      let s ← pySet p.2
      pure (dictInsert d0 p.1 s)) d with
    | Except.ok preds' => processItems rest preds'
    | Except.error e => Except.error e) = processItems rest d'
  rw [h1]

/-- Witness for `multi_key_object_records_all` at a two-key object, plus
the end-to-end behavior on the corresponding chunk. -/
theorem multi_key_object_records_all_witness :
    (∀ p ∈ [("00:00:28", PyJson.arr [PyJson.int 1]),
        ("00:00:30", PyJson.arr [PyJson.int 2])],
      exceptIsOk (pySet p.2) = true) ∧
    ∃ d', processItems
        [PyJson.obj [("00:00:28", PyJson.arr [PyJson.int 1]),
          ("00:00:30", PyJson.arr [PyJson.int 2])]] [] =
        processItems [] d' ∧
      ∀ p ∈ [("00:00:28", PyJson.arr [PyJson.int 1]),
          ("00:00:30", PyJson.arr [PyJson.int 2])],
        dictContains d' p.1 = true :=
  ⟨by decide,
    multi_key_object_records_all
      [("00:00:28", PyJson.arr [PyJson.int 1]),
        ("00:00:30", PyJson.arr [PyJson.int 2])] [] [] (by decide)⟩
